import Mathlib

/-!
Shallow embedding of the fastwhatsapp bridge core (Go sources under
`whatsapp-bridge/` plus the session-manager event pipeline) and proofs of the
specification claims about it.

Go strings are modelled as `List Char` (the claims restrict attention to
ASCII data, where Go's byte indexing and rune indexing agree), Go `int64`
timestamps as `Int`, Go `*T` (nullable) columns as `Option`, and byte slices
as `List Nat`.
-/

namespace FastWhatsapp

/-- Embedding of Go `strings.Index s pat`: index of the first occurrence of
`pat` in `s`, or `none` when there is no occurrence (Go returns `-1`). -/
def strIndex : List Char → List Char → Option Nat
  | [], pat => if pat.isPrefixOf [] then some 0 else none
  | c :: t, pat => if pat.isPrefixOf (c :: t) then some 0 else (strIndex t pat).map (· + 1)

/-- Parsed message-key triple, mirroring `msgIDParts` in `jid.go`. -/
structure MsgIDParts where
  fromMe : Bool
  chatJID : List Char
  messageID : List Char
deriving DecidableEq, Repr

/-- The domain boundary tokens scanned, in order, by `parseMessageIDParts`
(`jid.go` lines 65-72). -/
def domainTokens : List (List Char) :=
  ["@c.us_".data, "@g.us_".data, "@s.whatsapp.net_".data]

/-- The loop body of `parseMessageIDParts`: try each domain token in order;
on the first token that occurs in `rest`, split `rest` around its first
occurrence (keeping the domain, excluding the trailing underscore, on the
chat side). -/
def matchDomains (rest : List Char) : List (List Char) → Option (List Char × List Char)
  | [] => none
  | d :: ds =>
    match strIndex rest d with
    | some idx => some (rest.take (idx + d.length - 1), rest.drop (idx + d.length))
    | none => matchDomains rest ds

/-- Embedding of `parseMessageIDParts` (`jid.go:55-83`). -/
def parseMessageIDParts (id : List Char) : Option MsgIDParts :=
  match strIndex id ['_'] with
  | none => none
  | some i =>
    let fromMeStr := id.take i
    let rest := id.drop (i + 1)
    match matchDomains rest domainTokens with
    | none => none
    | some (chatJID, messageID) =>
      if chatJID = [] ∨ messageID = [] then none
      else some ⟨fromMeStr == "true".data, chatJID, messageID⟩

/-- Embedding of `formatMessageID` (`jid.go:86-92`). -/
def formatMessageID (fromMe : Bool) (chatJID messageID : List Char) : List Char :=
  (if fromMe then "true".data else "false".data) ++ '_' :: (chatJID ++ '_' :: messageID)

/-- Embedding of `toAPIJIDString` (`jid.go:21-26`): replace a trailing
`@s.whatsapp.net` with `@c.us`, otherwise return the string unchanged. -/
def toAPIJIDString (jid : List Char) : List Char :=
  if "@s.whatsapp.net".data.isSuffixOf jid then
    jid.take (jid.length - "@s.whatsapp.net".data.length) ++ "@c.us".data
  else jid

/-- Embedding of `extractNumber` (`jid.go:44-50`): prefix before the first
`@`, or the whole string when there is none. -/
def extractNumber (jid : List Char) : List Char :=
  match strIndex jid ['@'] with
  | none => jid
  | some i => jid.take i

/-! ## Store rows (schema of `store.go` / the `appSchema` tables) -/

/-- A row of the `contacts` table. -/
structure ContactRow where
  jid : List Char
  name : List Char
  pushName : List Char
  number : List Char
  isGroup : Bool
  updatedAt : Int
deriving DecidableEq, Repr

/-- A row of the `chats` table. `last_message` and `last_msg_ts` are nullable
columns, hence `Option`. -/
structure ChatRow where
  jid : List Char
  name : List Char
  isGroup : Bool
  unreadCount : Int
  lastMessage : Option (List Char)
  lastMsgTs : Option Int
  updatedAt : Int
deriving DecidableEq, Repr

/-- A row of the `messages` table. `media_type` is nullable; `raw_proto` is a
blob (a NULL blob and an empty blob both scan to empty bytes in the Go code,
so both are modelled as `[]`). -/
structure MessageRow where
  id : List Char
  chatJID : List Char
  senderJID : List Char
  senderName : List Char
  fromMe : Bool
  body : List Char
  timestamp : Int
  hasMedia : Bool
  mediaType : Option (List Char)
  rawProto : List Nat
deriving DecidableEq, Repr

/-! ## Upsert operations (`store.go`) -/

/-- The SQL condition guarding the `last_message` / `last_msg_ts` update in
`UpsertChat`: `excluded.last_msg_ts IS NOT NULL AND (chats.last_msg_ts IS NULL
OR excluded.last_msg_ts > chats.last_msg_ts)`. -/
def tsNewer (incoming stored : Option Int) : Bool :=
  match incoming with
  | none => false
  | some t =>
    match stored with
    | none => true
    | some o => o < t

/-- Embedding of `UpsertContact` (`store.go:82-99`). `none` for the row means
no existing row with this jid (plain INSERT); on conflict the three textual
fields keep the stored value when the incoming one is empty. -/
def UpsertContact (row? : Option ContactRow) (jid name pushName number : List Char)
    (isGroup : Bool) (now : Int) : ContactRow :=
  match row? with
  | none => ⟨jid, name, pushName, number, isGroup, now⟩
  | some r =>
    ⟨r.jid,
     if name ≠ [] then name else r.name,
     if pushName ≠ [] then pushName else r.pushName,
     if number ≠ [] then number else r.number,
     isGroup, now⟩

/-- Embedding of `UpsertChat` (`store.go:171-195`). -/
def UpsertChat (row? : Option ChatRow) (jid name : List Char) (isGroup : Bool)
    (lastMsg : Option (List Char)) (lastMsgTs : Option Int) (now : Int) : ChatRow :=
  match row? with
  | none => ⟨jid, name, isGroup, 0, lastMsg, lastMsgTs, now⟩
  | some r =>
    ⟨r.jid,
     if name ≠ [] then name else r.name,
     isGroup,
     r.unreadCount,
     if tsNewer lastMsgTs r.lastMsgTs then lastMsg else r.lastMessage,
     if tsNewer lastMsgTs r.lastMsgTs then lastMsgTs else r.lastMsgTs,
     now⟩

/-- Embedding of `UpdateChatLastMessage` (`store.go:294-303`): an
unconditional UPDATE of the preview pair; a no-op when the row is absent. -/
def UpdateChatLastMessage (row? : Option ChatRow) (body : List Char) (timestamp now : Int) :
    Option ChatRow :=
  row?.map fun r =>
    { r with lastMessage := some body, lastMsgTs := some timestamp, updatedAt := now }

/-- Embedding of `UpsertMessage` (`store.go:309-327`). On conflict, `body`
and `sender_name` keep the stored value when the incoming one is empty;
`has_media`, `media_type`, `raw_proto` are overwritten; the remaining columns
are not listed in the DO UPDATE SET clause and keep their stored values. -/
def UpsertMessage (row? : Option MessageRow) (id chatJID senderJID senderName : List Char)
    (fromMe : Bool) (body : List Char) (timestamp : Int) (hasMedia : Bool)
    (mediaType : Option (List Char)) (rawProto : List Nat) : MessageRow :=
  match row? with
  | none => ⟨id, chatJID, senderJID, senderName, fromMe, body, timestamp, hasMedia, mediaType, rawProto⟩
  | some r =>
    ⟨r.id, r.chatJID, r.senderJID,
     if senderName ≠ [] then senderName else r.senderName,
     r.fromMe,
     if body ≠ [] then body else r.body,
     r.timestamp,
     hasMedia, mediaType, rawProto⟩

/-! ## Chat-row operation sequences (for the I3 monotonicity claim) -/

/-- The two store operations the real-time message pipeline applies to a
chat row (`handleMessage` calls `UpsertChat` then `UpdateChatLastMessage`). -/
inductive ChatOp where
  | upsert (name : List Char) (isGroup : Bool) (lastMsg : Option (List Char))
      (lastMsgTs : Option Int) (now : Int)
  | updateLast (body : List Char) (timestamp now : Int)
deriving DecidableEq, Repr

/-- Whether a `ChatOp` is an `UpsertChat`. -/
def ChatOp.isUpsert : ChatOp → Bool
  | .upsert _ _ _ _ _ => true
  | .updateLast _ _ _ => false

/-- Apply one chat-row operation to the (possibly absent) row stored under
`jid`. -/
def applyChatOp (jid : List Char) (row? : Option ChatRow) : ChatOp → Option ChatRow
  | .upsert n g m t now => some (UpsertChat row? jid n g m t now)
  | .updateLast b t now => UpdateChatLastMessage row? b t now

/-- Apply a sequence of chat-row operations in order. -/
def applyChatOps (jid : List Char) (row? : Option ChatRow) (ops : List ChatOp) :
    Option ChatRow :=
  ops.foldl (applyChatOp jid) row?

/-- The `last_msg_ts` value visible for a possibly-absent chat row. -/
def lastTsOf (row? : Option ChatRow) : Option Int :=
  row?.bind (·.lastMsgTs)

/-- Order on nullable timestamps: an absent value is below everything, and a
present value never falls back to absent. -/
def tsLe (a b : Option Int) : Prop :=
  match a, b with
  | none, _ => True
  | some _, none => False
  | some x, some y => x ≤ y

instance (a b : Option Int) : Decidable (tsLe a b) := by
  rcases a with _ | x <;> rcases b with _ | y <;> simp [tsLe] <;> infer_instance

/-! ## Whole-store state and queries (`store.go`) -/

/-- The three application tables of `app.db` that the claims touch. -/
structure Store where
  contacts : List ContactRow
  chats : List ChatRow
  messages : List MessageRow
deriving DecidableEq, Repr

/-- Descending-timestamp ordering on message rows (`ORDER BY timestamp DESC`). -/
def tsGE (a b : MessageRow) : Prop := b.timestamp ≤ a.timestamp

instance : DecidableRel tsGE := fun a b => inferInstanceAs (Decidable (b.timestamp ≤ a.timestamp))

instance : IsTotal MessageRow tsGE := ⟨fun a b => (le_total b.timestamp a.timestamp).elim Or.inl Or.inr⟩

instance : IsTrans MessageRow tsGE := ⟨fun _ _ _ hab hbc => le_trans hbc hab⟩

/-- Embedding of `GetMessages` (`store.go:332-388`): the rows of the chat,
filtered by `timestamp <= beforeTs` only when `beforeTs > 0`, ordered by
timestamp descending, limited to `limit`. (The Go code then projects each row
to an API `Message`; the claims are about the selected rows.) -/
def GetMessages (msgs : List MessageRow) (chatJID : List Char) (limit : Nat)
    (beforeTs : Int) : List MessageRow :=
  ((if 0 < beforeTs then
      msgs.filter fun m => m.chatJID == chatJID && decide (m.timestamp ≤ beforeTs)
    else
      msgs.filter fun m => m.chatJID == chatJID).insertionSort tsGE).take limit

/-- Embedding of `GetRawProto` (`store.go:390-398`): scan the `raw_proto`
column of the row with the given id. The only error the query itself can
produce is the no-rows case, modelled as `none`; a row whose blob is NULL or
empty scans to empty bytes with no error. -/
def GetRawProto (msgs : List MessageRow) (messageID : List Char) : Option (List Nat) :=
  (msgs.find? fun m => m.id == messageID).map (·.rawProto)

/-- The raw-proto lookup as the `/download-media` handler uses it
(`handlers.go:386-394`): a missing row and empty stored bytes are both
rejected. -/
def downloadMediaRawProto (msgs : List MessageRow) (messageID : List Char) :
    Option (List Nat) :=
  match GetRawProto msgs messageID with
  | none => none
  | some b => if b = [] then none else some b

/-! ## GetContacts (`store.go:117-162`) -/

/-- SQLite `REPLACE(s, pat, '')` for a non-empty pattern: remove every
(left-to-right, non-overlapping) occurrence of `pat` from `s`. -/
def stripAll (pat : List Char) : List Char → List Char
  | [] => []
  | c :: t =>
    if h : pat ≠ [] ∧ pat.isPrefixOf (c :: t) then stripAll pat ((c :: t).drop pat.length)
    else c :: stripAll pat t
termination_by s => s.length
decreasing_by
  · simp only [List.length_drop, List.length_cons]
    have : 1 ≤ pat.length := by
      rcases pat with _ | ⟨p, ps⟩
      · exact absurd rfl h.1
      · simp
    omega
  · simp

/-- SQLite `COALESCE(NULLIF(x₁,''), …, NULLIF(xₙ,''), d)`: the first
non-empty candidate, else the default. -/
def coalesceNE : List (List Char) → List Char → List Char
  | [], d => d
  | x :: t, d => if x = [] then coalesceNE t d else x

/-- The `LEFT JOIN contacts ct ON ch.jid = ct.jid` row, if any. -/
def contactFor (s : Store) (jid : List Char) : Option ContactRow :=
  s.contacts.find? fun ct => ct.jid == jid

/-- The jid-derived fallback used for both display name and number in
`GetContacts`: `REPLACE(REPLACE(jid, '@s.whatsapp.net', ''), '@c.us', '')`. -/
def jidFallback (jid : List Char) : List Char :=
  stripAll "@c.us".data (stripAll "@s.whatsapp.net".data jid)

/-- One output row of `GetContacts` (the Go `Contact` struct). -/
structure ContactOut where
  id : List Char
  name : List Char
  number : List Char
  isGroup : Bool
deriving DecidableEq, Repr

/-- The display name `GetContacts` computes for a chat row: first non-empty
of contact name, contact push name, chat name, and the jid fallback. -/
def displayNameFor (s : Store) (ch : ChatRow) : List Char :=
  let octName := match contactFor s ch.jid with | none => [] | some ct => ct.name
  let octPush := match contactFor s ch.jid with | none => [] | some ct => ct.pushName
  coalesceNE [octName, octPush, ch.name] (jidFallback ch.jid)

/-- The number column `GetContacts` computes for a chat row. -/
def numberFor (s : Store) (ch : ChatRow) : List Char :=
  let octNumber := match contactFor s ch.jid with | none => [] | some ct => ct.number
  coalesceNE [octNumber] (jidFallback ch.jid)

/-- The WHERE clause of `GetContacts`: non-group chats whose jid ends in
neither `@lid` nor `@broadcast`. -/
def contactsFilter (ch : ChatRow) : Bool :=
  !ch.isGroup && !("@lid".data.isSuffixOf ch.jid) && !("@broadcast".data.isSuffixOf ch.jid)

/-- The output row `GetContacts` builds from a selected chat row. -/
def contactEntry (s : Store) (ch : ChatRow) : ContactOut :=
  ⟨toAPIJIDString ch.jid, displayNameFor s ch, numberFor s ch, ch.isGroup⟩

/-- ASCII lower-casing as SQLite `COLLATE NOCASE` folds (A-Z only). -/
def asciiLower (c : Char) : Char :=
  if 'A' ≤ c ∧ c ≤ 'Z' then Char.ofNat (c.toNat + 32) else c

/-- Case-insensitive sort key of a string. -/
def ciKey (s : List Char) : List Char := s.map asciiLower

/-- The `ORDER BY display_name COLLATE NOCASE ASC` ordering on output rows. -/
def nameCI (a b : ContactOut) : Prop := ciKey a.name ≤ ciKey b.name

instance : DecidableRel nameCI := fun a b => inferInstanceAs (Decidable (ciKey a.name ≤ ciKey b.name))

instance : IsTotal ContactOut nameCI := ⟨fun a b => (le_total (ciKey a.name) (ciKey b.name)).elim Or.inl Or.inr⟩

instance : IsTrans ContactOut nameCI := ⟨fun _ _ _ hab hbc => le_trans hab hbc⟩

/-- Embedding of `GetContacts` (`store.go:117-162`). -/
def GetContacts (s : Store) : List ContactOut :=
  ((s.chats.filter contactsFilter).map (contactEntry s)).insertionSort nameCI

/-! ## GetChats row selection and DeleteChat (`store.go`) -/

/-- Descending order on `COALESCE(last_msg_ts, 0)` used by `GetChats`. -/
def chatTsGE (a b : ChatRow) : Prop := b.lastMsgTs.getD 0 ≤ a.lastMsgTs.getD 0

instance : DecidableRel chatTsGE := fun a b => inferInstanceAs (Decidable (b.lastMsgTs.getD 0 ≤ a.lastMsgTs.getD 0))

instance : IsTotal ChatRow chatTsGE := ⟨fun a b => (le_total (b.lastMsgTs.getD 0) (a.lastMsgTs.getD 0)).elim Or.inl Or.inr⟩

instance : IsTrans ChatRow chatTsGE := ⟨fun _ _ _ hab hbc => le_trans hbc hab⟩

/-- The chat rows `GetChats` (`store.go:199-241`) selects and their order:
all chats that end in neither `@lid` nor `@broadcast`, by last-message
timestamp descending (nulls as 0). The Go code then projects each row to an
API `Chat` (converting the jid with `toAPIJIDString`). -/
def getChatsRows (s : Store) : List ChatRow :=
  (s.chats.filter fun ch =>
      !("@lid".data.isSuffixOf ch.jid) && !("@broadcast".data.isSuffixOf ch.jid)).insertionSort
    chatTsGE

/-- The two statements `DeleteChat` (`store.go:276-292`) executes inside its
transaction. -/
inductive TxOp where
  | delMessages (chatJID : List Char)
  | delChat (chatJID : List Char)
deriving DecidableEq, Repr

/-- Effect of one transaction statement on the store. -/
def applyTxOp (s : Store) : TxOp → Store
  | .delMessages c => { s with messages := s.messages.filter fun m => !(m.chatJID == c) }
  | .delChat c => { s with chats := s.chats.filter fun ch => !(ch.jid == c) }

/-- SQLite transaction semantics as the Go code uses them (`Begin` /
deferred `Rollback` / final `Commit`): on commit all statements take effect,
otherwise none do. -/
def runTx (s : Store) (ops : List TxOp) (commit : Bool) : Store :=
  if commit then ops.foldl applyTxOp s else s

/-- Embedding of `DeleteChat` (`store.go:276-292`): delete the chat's
messages, then the chat row, in one transaction. -/
def DeleteChat (s : Store) (chatJID : List Char) (commit : Bool) : Store :=
  runTx s [.delMessages chatJID, .delChat chatJID] commit

/-! ## History-sync anchor (`store.go:425-449`, `client.go:218-259`) -/

/-- The anchor data of `OldestMessageInfo` (`store.go:417-422`). -/
structure OldestMessageInfo where
  rawMsgID : List Char
  chatJID : List Char
  fromMe : Bool
  ts : Int
deriving DecidableEq, Repr

/-- The fold implementing `ORDER BY timestamp ASC LIMIT 1`: keep the first
row with the strictly smallest timestamp. -/
def minTsFold (acc : Option MessageRow) (m : MessageRow) : Option MessageRow :=
  match acc with
  | none => some m
  | some b => if m.timestamp < b.timestamp then some m else some b

/-- The row `SELECT … WHERE chat_jid = ? ORDER BY timestamp ASC LIMIT 1`
returns, if any. -/
def oldestRow (msgs : List MessageRow) (chatJID : List Char) : Option MessageRow :=
  (msgs.filter fun m => m.chatJID == chatJID).foldl minTsFold none

/-- Embedding of `GetOldestMessage` (`store.go:426-449`): `none` models the
error return, produced both when the chat has no rows and when the stored id
fails to parse as a message key. -/
def GetOldestMessage (msgs : List MessageRow) (chatJID : List Char) :
    Option OldestMessageInfo :=
  match oldestRow msgs chatJID with
  | none => none
  | some row =>
    match parseMessageIDParts row.id with
    | none => none
    | some parts => some ⟨parts.messageID, chatJID, row.fromMe, row.timestamp⟩

/-- The anchor of the outbound peer request (`MessageInfo` fields `ID`,
`IsFromMe`, `Timestamp` in `client.go`). -/
structure Anchor where
  rawId : List Char
  fromMe : Bool
  ts : Int
deriving DecidableEq, Repr

/-- The sentinel raw id used when no stored anchor is available. -/
def sentinelRawID : List Char := "FFFFFFFFFFFFFFFFFFFFFFFF".data

/-- Embedding of the anchor selection in `RequestHistorySync`
(`client.go:221-259`): on any `GetOldestMessage` error, fabricate an anchor
at the current time with the sentinel id and `fromMe = true`; otherwise
anchor at the oldest stored message. -/
def RequestHistorySync (msgs : List MessageRow) (chatJID : List Char) (now : Int) : Anchor :=
  match GetOldestMessage msgs chatJID with
  | none => ⟨sentinelRawID, true, now⟩
  | some o => ⟨o.rawMsgID, o.fromMe, o.ts⟩

/-! ## The message-event pipeline pieces (`part_005`: `handleMessage`,
`truncate`) -/

/-- Embedding of `truncate` (`part_005:538-543`): the first `n` characters,
with a literal `"..."` appended when the input is longer than `n`. -/
def truncate (s : List Char) (n : Nat) : List Char :=
  if s.length ≤ n then s else s.take n ++ "...".data

/-- The preview string `handleMessage` (`part_005:327`) passes to
`UpsertChat` and `UpdateChatLastMessage`. -/
def bodyPreview (body : List Char) : List Char := truncate body 100

/-- The chat-row effect of one `handleMessage` call (`part_005:325-337`):
upsert the chat with the capped preview and the message timestamp, then, when
the body is non-empty, overwrite the preview pair unconditionally. -/
def handleMessageChatStep (jid : List Char) (row? : Option ChatRow) (isGroup : Bool)
    (body : List Char) (ts now : Int) : Option ChatRow :=
  let r1 := some (UpsertChat row? jid [] isGroup (some (bodyPreview body)) (some ts) now)
  if body ≠ [] then UpdateChatLastMessage r1 (bodyPreview body) ts now else r1

/-! ## Properties the claims quantify over, as definitions -/

/-- The row is one of the chat's messages and has the minimum timestamp
among them. -/
def isOldestInChat (msgs : List MessageRow) (c : List Char) (row : MessageRow) : Prop :=
  row ∈ msgs ∧ row.chatJID = c ∧ ∀ m ∈ msgs, m.chatJID = c → row.timestamp ≤ m.timestamp

/-- Every returned row belongs to the chat. -/
def allInChat (c : List Char) (l : List MessageRow) : Prop :=
  ∀ m ∈ l, m.chatJID = c

/-- The rows are ordered by timestamp descending. -/
def tsSortedDesc (l : List MessageRow) : Prop :=
  l.Pairwise tsGE

/-- Every returned row has timestamp at most the bound. -/
def allBefore (beforeTs : Int) (l : List MessageRow) : Prop :=
  ∀ m ∈ l, m.timestamp ≤ beforeTs

/-- No row the chat listing would return has the given jid. -/
def chatAbsent (s : Store) (c : List Char) : Prop :=
  ∀ ch ∈ getChatsRows s, ch.jid ≠ c

/-- The output of `GetContacts` is exactly one entry per selected chat row:
a chat row is selected iff it passes `contactsFilter`, and its entry carries
the API-form address and the coalesced display name. -/
def contactsExactly (s : Store) : Prop :=
  ∀ e, e ∈ GetContacts s ↔ ∃ ch, (ch ∈ s.chats ∧ contactsFilter ch = true) ∧ contactEntry s ch = e

/-- The contact listing is ordered by display name, case-insensitively. -/
def sortedByNameCI (l : List ContactOut) : Prop :=
  l.Pairwise nameCI

/-! ## Concrete fixture rows used by witnesses -/

/-- A concrete contact row with all textual fields non-empty. -/
def sampleContact : ContactRow :=
  ⟨"7@s.whatsapp.net".data, "Old".data, "OldPush".data, "7".data, false, 0⟩

/-- A concrete chat row with a non-empty name and a stored preview pair. -/
def sampleChat : ChatRow :=
  ⟨"7@s.whatsapp.net".data, "OldChat".data, false, 0, some "prev".data, some 10, 0⟩

/-- A concrete message row with non-empty body and sender name. -/
def sampleMessage : MessageRow :=
  ⟨"true_7@c.us_AA".data, "7@s.whatsapp.net".data, "7@s.whatsapp.net".data,
   "OldSender".data, true, "OldBody".data, 10, false, none, []⟩

/-! ## Lemmas about `strIndex` -/

theorem strIndex_of_isPrefixOf {s pat : List Char} (h : pat.isPrefixOf s) :
    strIndex s pat = some 0 := by
  cases s <;> simp [strIndex, h]

theorem strIndex_cons_of_neg {c : Char} {t pat : List Char} (h : ¬ pat.isPrefixOf (c :: t)) :
    strIndex (c :: t) pat = (strIndex t pat).map (· + 1) := by
  simp [strIndex, h]

theorem strIndex_append_head (a : Char) (w u s : List Char) (hu : a ∉ u) :
    strIndex (u ++ s) (a :: w) = (strIndex s (a :: w)).map (· + u.length) := by
  induction u with
  | nil =>
    simp only [List.nil_append, List.length_nil]
    cases strIndex s (a :: w) <;> simp
  | cons c u ih =>
    have hac : a ≠ c := fun h => hu (h ▸ List.mem_cons_self c u)
    have hu' : a ∉ u := fun h => hu (List.mem_cons_of_mem c h)
    have hne : ¬ (a :: w).isPrefixOf (c :: (u ++ s)) := by
      rw [List.isPrefixOf_iff_prefix]
      intro hpre
      exact hac (List.cons_prefix_cons.mp hpre).1
    rw [List.cons_append, strIndex_cons_of_neg hne, ih hu']
    cases strIndex s (a :: w) <;> simp [Nat.add_assoc]

theorem strIndex_none_of_not_mem (a : Char) (w s : List Char) (h : a ∉ s) :
    strIndex s (a :: w) = none := by
  induction s with
  | nil => simp [strIndex]
  | cons c t ih =>
    have hac : a ≠ c := fun hh => h (hh ▸ List.mem_cons_self c t)
    have hne : ¬ (a :: w).isPrefixOf (c :: t) := by
      rw [List.isPrefixOf_iff_prefix]
      intro hpre
      exact hac (List.cons_prefix_cons.mp hpre).1
    rw [strIndex_cons_of_neg hne, ih (fun hh => h (List.mem_cons_of_mem c hh))]
    rfl

theorem strIndex_boundary (x : Char) (u v : List Char) (hu : x ∉ u) :
    strIndex (u ++ x :: v) [x] = some u.length := by
  rw [strIndex_append_head x [] u (x :: v) hu]
  have : ([x] : List Char).isPrefixOf (x :: v) := by
    rw [List.isPrefixOf_iff_prefix]
    exact ⟨v, rfl⟩
  rw [strIndex_of_isPrefixOf this]
  simp

theorem strIndex_head_skip (a : Char) (w u m : List Char) (hu : a ∉ u) (hm : a ∉ m) :
    strIndex (u ++ a :: m) (a :: w) =
      if w.isPrefixOf m then some u.length else none := by
  rw [strIndex_append_head a w u (a :: m) hu]
  by_cases hw : w.isPrefixOf m
  · have hp : (a :: w).isPrefixOf (a :: m) := by
      show ((a == a) && w.isPrefixOf m) = true
      simp only [beq_self_eq_true, Bool.true_and]
      exact hw
    rw [strIndex_of_isPrefixOf hp]
    simp [hw]
  · have hne : ¬ (a :: w).isPrefixOf (a :: m) := by
      intro hc
      have hc' : ((a == a) && w.isPrefixOf m) = true := hc
      simp only [beq_self_eq_true, Bool.true_and] at hc'
      exact hw hc'
    rw [strIndex_cons_of_neg hne, strIndex_none_of_not_mem a w m hm]
    simp [hw]

theorem strIndex_some_isPrefixOf {s pat : List Char} {i : Nat} (h : strIndex s pat = some i) :
    pat.isPrefixOf (s.drop i) := by
  induction s generalizing i with
  | nil =>
    by_cases hp : pat.isPrefixOf ([] : List Char)
    · simp [strIndex, hp] at h
      subst h
      exact hp
    · simp [strIndex, hp] at h
  | cons c t ih =>
    by_cases hp : pat.isPrefixOf (c :: t)
    · rw [strIndex_of_isPrefixOf hp] at h
      cases h
      exact hp
    · rw [strIndex_cons_of_neg hp] at h
      cases hj : strIndex t pat with
      | none => rw [hj] at h; cases h
      | some j =>
        rw [hj] at h
        have hij : j + 1 = i := by simpa using h
        subst hij
        exact ih hj

theorem strIndex_reconstruct {s pat : List Char} {i : Nat} (h : strIndex s pat = some i) :
    s = s.take i ++ pat ++ s.drop (i + pat.length) := by
  have hp := strIndex_some_isPrefixOf h
  rw [List.isPrefixOf_iff_prefix] at hp
  obtain ⟨tail, htail⟩ := hp
  have hdrop : s.drop (i + pat.length) = tail := by
    have : s.drop (i + pat.length) = (s.drop i).drop pat.length := by
      rw [List.drop_drop]
    rw [this, ← htail, List.drop_left]
  rw [hdrop]
  conv_lhs => rw [← List.take_append_drop i s, ← htail]
  simp

theorem strIndex_some_lt_length {s pat : List Char} {i : Nat} (h : strIndex s pat = some i)
    (hpat : pat ≠ []) : i < s.length := by
  have hp := strIndex_some_isPrefixOf h
  rw [List.isPrefixOf_iff_prefix] at hp
  have hlen := hp.length_le
  rw [List.length_drop] at hlen
  have : 1 ≤ pat.length := by
    rcases pat with _ | ⟨p, ps⟩
    · exact absurd rfl hpat
    · simp
  omega

/-! ## Structure of `parseMessageIDParts` -/

/-- Evaluate `parseMessageIDParts` on a string whose fromMe segment is known
(the segment before the first underscore). -/
theorem parse_split (f rest : List Char) (hf : '_' ∉ f) :
    parseMessageIDParts (f ++ '_' :: rest) =
      match matchDomains rest domainTokens with
      | none => none
      | some (c, m) =>
        if c = [] ∨ m = [] then none else some ⟨f == "true".data, c, m⟩ := by
  have ht : (f ++ '_' :: rest).take f.length = f := List.take_left _ _
  have hd : (f ++ '_' :: rest).drop (f.length + 1) = rest := by
    rw [← List.drop_drop, List.drop_left]
    rfl
  unfold parseMessageIDParts
  rw [strIndex_boundary '_' f rest hf]
  simp only [ht, hd]

/-- `matchDomains` on a `@c.us` chat address with `@`-free user part and raw
id: the first domain token hits exactly at the boundary. -/
theorem matchDomains_cus (u r : List Char) (hu : '@' ∉ u) (hr : '@' ∉ r) :
    matchDomains (u ++ "@c.us".data ++ '_' :: r) domainTokens =
      some (u ++ "@c.us".data, r) := by
  have hm : '@' ∉ ("c.us".data ++ '_' :: r) := by
    intro hmem
    rcases List.mem_append.mp hmem with h | h
    · revert h; decide
    · rcases List.mem_cons.mp h with h | h
      · cases h
      · exact hr h
  have hshape : u ++ "@c.us".data ++ '_' :: r = u ++ '@' :: ("c.us".data ++ '_' :: r) := by
    simp
  have hpre : ("c.us_".data).isPrefixOf ("c.us".data ++ '_' :: r) = true := by
    rw [List.isPrefixOf_iff_prefix]
    exact ⟨r, rfl⟩
  have hidx : strIndex (u ++ "@c.us".data ++ '_' :: r) "@c.us_".data = some u.length := by
    rw [hshape]
    rw [show ("@c.us_".data : List Char) = '@' :: "c.us_".data from rfl]
    rw [strIndex_head_skip '@' "c.us_".data u ("c.us".data ++ '_' :: r) hu hm, if_pos hpre]
  show matchDomains (u ++ "@c.us".data ++ '_' :: r) ("@c.us_".data :: ["@g.us_".data, "@s.whatsapp.net_".data]) = _
  rw [matchDomains, hidx]
  dsimp only
  have hlen1 : (u ++ "@c.us".data).length = u.length + "@c.us_".data.length - 1 := by
    simp
  have htake : (u ++ "@c.us".data ++ '_' :: r).take (u.length + "@c.us_".data.length - 1) =
      u ++ "@c.us".data := by
    rw [show u ++ "@c.us".data ++ '_' :: r = (u ++ "@c.us".data) ++ '_' :: r from by simp]
    exact List.take_left' hlen1
  have hdrop : (u ++ "@c.us".data ++ '_' :: r).drop (u.length + "@c.us_".data.length) = r := by
    rw [show u ++ "@c.us".data ++ '_' :: r = (u ++ "@c.us_".data) ++ r from by simp]
    refine List.drop_left' ?_
    simp
  rw [htake, hdrop]

/-- `matchDomains` on a `@g.us` chat address: the first token finds no `@`
match, the second hits the boundary. -/
theorem matchDomains_gus (u r : List Char) (hu : '@' ∉ u) (hr : '@' ∉ r) :
    matchDomains (u ++ "@g.us".data ++ '_' :: r) domainTokens =
      some (u ++ "@g.us".data, r) := by
  have hm : '@' ∉ ("g.us".data ++ '_' :: r) := by
    intro hmem
    rcases List.mem_append.mp hmem with h | h
    · revert h; decide
    · rcases List.mem_cons.mp h with h | h
      · cases h
      · exact hr h
  have hshape : u ++ "@g.us".data ++ '_' :: r = u ++ '@' :: ("g.us".data ++ '_' :: r) := by
    simp
  have hidx1 : strIndex (u ++ "@g.us".data ++ '_' :: r) "@c.us_".data = none := by
    rw [hshape, show ("@c.us_".data : List Char) = '@' :: "c.us_".data from rfl]
    rw [strIndex_head_skip '@' "c.us_".data u ("g.us".data ++ '_' :: r) hu hm]
    rw [show ("c.us_".data.isPrefixOf ("g.us".data ++ '_' :: r)) = false from rfl]
    simp
  have hpre : ("g.us_".data).isPrefixOf ("g.us".data ++ '_' :: r) = true := by
    rw [List.isPrefixOf_iff_prefix]
    exact ⟨r, rfl⟩
  have hidx2 : strIndex (u ++ "@g.us".data ++ '_' :: r) "@g.us_".data = some u.length := by
    rw [hshape, show ("@g.us_".data : List Char) = '@' :: "g.us_".data from rfl]
    rw [strIndex_head_skip '@' "g.us_".data u ("g.us".data ++ '_' :: r) hu hm, if_pos hpre]
  show matchDomains (u ++ "@g.us".data ++ '_' :: r) ("@c.us_".data :: "@g.us_".data :: ["@s.whatsapp.net_".data]) = _
  rw [matchDomains, hidx1, matchDomains, hidx2]
  dsimp only
  have hlen1 : (u ++ "@g.us".data).length = u.length + "@g.us_".data.length - 1 := by
    simp
  have htake : (u ++ "@g.us".data ++ '_' :: r).take (u.length + "@g.us_".data.length - 1) =
      u ++ "@g.us".data := by
    rw [show u ++ "@g.us".data ++ '_' :: r = (u ++ "@g.us".data) ++ '_' :: r from by simp]
    exact List.take_left' hlen1
  have hdrop : (u ++ "@g.us".data ++ '_' :: r).drop (u.length + "@g.us_".data.length) = r := by
    rw [show u ++ "@g.us".data ++ '_' :: r = (u ++ "@g.us_".data) ++ r from by simp]
    refine List.drop_left' ?_
    simp
  rw [htake, hdrop]

/-- `matchDomains` on a `@s.whatsapp.net` chat address: the first two tokens
find no `@` match, the third hits the boundary. -/
theorem matchDomains_wnet (u r : List Char) (hu : '@' ∉ u) (hr : '@' ∉ r) :
    matchDomains (u ++ "@s.whatsapp.net".data ++ '_' :: r) domainTokens =
      some (u ++ "@s.whatsapp.net".data, r) := by
  have hm : '@' ∉ ("s.whatsapp.net".data ++ '_' :: r) := by
    intro hmem
    rcases List.mem_append.mp hmem with h | h
    · revert h; decide
    · rcases List.mem_cons.mp h with h | h
      · cases h
      · exact hr h
  have hshape : u ++ "@s.whatsapp.net".data ++ '_' :: r =
      u ++ '@' :: ("s.whatsapp.net".data ++ '_' :: r) := by
    simp
  have hidx1 : strIndex (u ++ "@s.whatsapp.net".data ++ '_' :: r) "@c.us_".data = none := by
    rw [hshape, show ("@c.us_".data : List Char) = '@' :: "c.us_".data from rfl]
    rw [strIndex_head_skip '@' "c.us_".data u ("s.whatsapp.net".data ++ '_' :: r) hu hm]
    rw [show ("c.us_".data.isPrefixOf ("s.whatsapp.net".data ++ '_' :: r)) = false from rfl]
    simp
  have hidx2 : strIndex (u ++ "@s.whatsapp.net".data ++ '_' :: r) "@g.us_".data = none := by
    rw [hshape, show ("@g.us_".data : List Char) = '@' :: "g.us_".data from rfl]
    rw [strIndex_head_skip '@' "g.us_".data u ("s.whatsapp.net".data ++ '_' :: r) hu hm]
    rw [show ("g.us_".data.isPrefixOf ("s.whatsapp.net".data ++ '_' :: r)) = false from rfl]
    simp
  have hpre : ("s.whatsapp.net_".data).isPrefixOf ("s.whatsapp.net".data ++ '_' :: r) = true := by
    rw [List.isPrefixOf_iff_prefix]
    exact ⟨r, rfl⟩
  have hidx3 : strIndex (u ++ "@s.whatsapp.net".data ++ '_' :: r) "@s.whatsapp.net_".data =
      some u.length := by
    rw [hshape, show ("@s.whatsapp.net_".data : List Char) = '@' :: "s.whatsapp.net_".data from rfl]
    rw [strIndex_head_skip '@' "s.whatsapp.net_".data u ("s.whatsapp.net".data ++ '_' :: r) hu hm,
      if_pos hpre]
  show matchDomains (u ++ "@s.whatsapp.net".data ++ '_' :: r)
      ("@c.us_".data :: "@g.us_".data :: ["@s.whatsapp.net_".data]) = _
  rw [matchDomains, hidx1, matchDomains, hidx2, matchDomains, hidx3]
  dsimp only
  have hlen1 : (u ++ "@s.whatsapp.net".data).length =
      u.length + "@s.whatsapp.net_".data.length - 1 := by
    simp
  have htake : (u ++ "@s.whatsapp.net".data ++ '_' :: r).take
      (u.length + "@s.whatsapp.net_".data.length - 1) = u ++ "@s.whatsapp.net".data := by
    rw [show u ++ "@s.whatsapp.net".data ++ '_' :: r =
        (u ++ "@s.whatsapp.net".data) ++ '_' :: r from by simp]
    exact List.take_left' hlen1
  have hdrop : (u ++ "@s.whatsapp.net".data ++ '_' :: r).drop
      (u.length + "@s.whatsapp.net_".data.length) = r := by
    rw [show u ++ "@s.whatsapp.net".data ++ '_' :: r =
        (u ++ "@s.whatsapp.net_".data) ++ r from by simp]
    refine List.drop_left' ?_
    simp
  rw [htake, hdrop]

/-- Each domain token is a non-empty word followed by an underscore. -/
theorem domainTokens_shape : ∀ d ∈ domainTokens, ∃ w, w ≠ [] ∧ d = w ++ ['_'] := by
  intro d hd
  rcases List.mem_cons.mp hd with rfl | hd
  · exact ⟨"@c.us".data, by decide, by decide⟩
  rcases List.mem_cons.mp hd with rfl | hd
  · exact ⟨"@g.us".data, by decide, by decide⟩
  rcases List.mem_cons.mp hd with rfl | hd
  · exact ⟨"@s.whatsapp.net".data, by decide, by decide⟩
  · cases hd

/-- A successful `matchDomains` split reassembles to the input, and the chat
side is non-empty. -/
theorem matchDomains_sound {rest : List Char} {ds : List (List Char)} {c m : List Char}
    (h : matchDomains rest ds = some (c, m))
    (hds : ∀ d ∈ ds, ∃ w, w ≠ [] ∧ d = w ++ ['_']) :
    c ++ '_' :: m = rest ∧ c ≠ [] := by
  induction ds with
  | nil => cases h
  | cons d ds ih =>
    rw [matchDomains] at h
    cases hidx : strIndex rest d with
    | none =>
      rw [hidx] at h
      exact ih h (fun d' hd' => hds d' (List.mem_cons_of_mem d hd'))
    | some idx =>
      rw [hidx] at h
      dsimp only at h
      obtain ⟨hc, hm⟩ := Prod.mk.injEq .. ▸ Option.some.injEq .. ▸ h
      obtain ⟨w, hw, rfl⟩ := hds d (List.mem_cons_self d ds)
      have hlt : idx < rest.length := strIndex_some_lt_length hidx (by simp)
      have hrec := strIndex_reconstruct hidx
      have hA : (rest.take idx).length = idx := by
        rw [List.length_take]
        omega
      have hlen : (w ++ ['_']).length = w.length + 1 := by simp
      have hidxlen : idx + (w ++ ['_']).length - 1 = idx + w.length := by
        rw [hlen]
        omega
      have hsplit : rest = (rest.take idx ++ w) ++ '_' :: rest.drop (idx + (w ++ ['_']).length) := by
        conv_lhs => rw [hrec]
        simp
      have hcval : c = rest.take idx ++ w := by
        rw [← hc, hidxlen]
        conv_lhs => rw [hsplit]
        refine List.take_left' ?_
        rw [List.length_append, hA]
      constructor
      · rw [hcval, ← hm]
        conv_rhs => rw [hsplit]
      · rw [hcval]
        intro hnil
        rcases List.append_eq_nil.mp hnil with ⟨-, hwnil⟩
        exact hw hwnil

/-- Direction 1 of the round-trip: parsing a formatted key recovers the
triple, provided the user part of the chat address and the raw id are
`@`-free. -/
theorem parse_format_roundtrip (fm : Bool) (u d r : List Char)
    (hd : d = "@c.us".data ∨ d = "@g.us".data ∨ d = "@s.whatsapp.net".data)
    (hu : '@' ∉ u) (hr : '@' ∉ r) (hrne : r ≠ []) :
    parseMessageIDParts (formatMessageID fm (u ++ d) r) = some ⟨fm, u ++ d, r⟩ := by
  have hcne : u ++ d ≠ [] := by
    intro hnil
    rcases List.append_eq_nil.mp hnil with ⟨-, hdnil⟩
    rcases hd with rfl | rfl | rfl <;> cases hdnil
  have hmd : matchDomains ((u ++ d) ++ '_' :: r) domainTokens = some (u ++ d, r) := by
    rcases hd with rfl | rfl | rfl
    · rw [List.append_assoc u _ ('_' :: r)] at *
      exact List.append_assoc u _ ('_' :: r) ▸ matchDomains_cus u r hu hr
    · exact List.append_assoc u _ ('_' :: r) ▸ matchDomains_gus u r hu hr
    · exact List.append_assoc u _ ('_' :: r) ▸ matchDomains_wnet u r hu hr
  cases fm with
  | true =>
    have : formatMessageID true (u ++ d) r = "true".data ++ '_' :: ((u ++ d) ++ '_' :: r) := rfl
    rw [this, parse_split _ _ (by decide), hmd]
    dsimp only
    rw [if_neg (by simp [hcne, hrne])]
    rfl
  | false =>
    have : formatMessageID false (u ++ d) r = "false".data ++ '_' :: ((u ++ d) ++ '_' :: r) := rfl
    rw [this, parse_split _ _ (by decide), hmd]
    dsimp only
    rw [if_neg (by simp [hcne, hrne])]
    rfl

/-- Direction 2 of the round-trip: formatting a successfully parsed string
whose fromMe segment is a boolean literal reproduces the string. -/
theorem format_parse_roundtrip (f rest0 : List Char) (p : MsgIDParts)
    (hf : f = "true".data ∨ f = "false".data)
    (hp : parseMessageIDParts (f ++ '_' :: rest0) = some p) :
    formatMessageID p.fromMe p.chatJID p.messageID = f ++ '_' :: rest0 := by
  have hfu : '_' ∉ f := by rcases hf with rfl | rfl <;> decide
  rw [parse_split f rest0 hfu] at hp
  cases hmd : matchDomains rest0 domainTokens with
  | none => rw [hmd] at hp; cases hp
  | some cm =>
    obtain ⟨c, m⟩ := cm
    rw [hmd] at hp
    dsimp only at hp
    by_cases hcm : c = [] ∨ m = []
    · rw [if_pos hcm] at hp; cases hp
    · rw [if_neg hcm] at hp
      obtain rfl : (⟨f == "true".data, c, m⟩ : MsgIDParts) = p := Option.some.injEq .. ▸ hp
      obtain ⟨hrest, -⟩ := matchDomains_sound hmd domainTokens_shape
      rcases hf with rfl | rfl
      · show formatMessageID ("true".data == "true".data) c m = _
        rw [show ("true".data == "true".data) = true from by decide]
        show "true".data ++ '_' :: (c ++ '_' :: m) = _
        rw [hrest]
      · show formatMessageID ("false".data == "true".data) c m = _
        rw [show ("false".data == "true".data) = false from by decide]
        show "false".data ++ '_' :: (c ++ '_' :: m) = _
        rw [hrest]

/-- Claim C1, counterexample to the claim as stated: the triple
`(false, "1@g.us", "2@c.us_3")` is valid in the claim's sense (the chat
address ends in `@g.us`, the raw id is non-empty ASCII), yet
`parseMessageIDParts (formatMessageID …)` does not return it — the scan for
the earlier-listed token `@c.us_` splits inside the raw id. -/
theorem c1_roundtrip_counterexample :
    parseMessageIDParts (formatMessageID false "1@g.us".data "2@c.us_3".data) =
      some ⟨false, "1@g.us_2@c.us".data, "3".data⟩ ∧
    parseMessageIDParts (formatMessageID false "1@g.us".data "2@c.us_3".data) ≠
      some ⟨false, "1@g.us".data, "2@c.us_3".data⟩ := by
  constructor
  · decide
  · decide

/-- Claim C1 (amended): the round-trip laws hold when no stray `@` can
produce a spurious domain-token occurrence. Direction 1: for every triple
whose chat address is an `@`-free user part followed by one of the three
domain suffixes and whose raw id is non-empty and `@`-free,
`parseMessageIDParts (formatMessageID fm chat raw)` returns exactly the
triple. Direction 2: every string whose fromMe segment is the literal
`true` or `false` and that parses successfully is reproduced verbatim by
`formatMessageID` applied to the parse result. -/
theorem c1_message_key_roundtrip (fm : Bool) (u d r f rest0 : List Char) (p : MsgIDParts)
    (hd : d = "@c.us".data ∨ d = "@g.us".data ∨ d = "@s.whatsapp.net".data)
    (hu : '@' ∉ u) (hr : '@' ∉ r) (hrne : r ≠ [])
    (hf : f = "true".data ∨ f = "false".data)
    (hp : parseMessageIDParts (f ++ '_' :: rest0) = some p) :
    parseMessageIDParts (formatMessageID fm (u ++ d) r) = some ⟨fm, u ++ d, r⟩ ∧
    formatMessageID p.fromMe p.chatJID p.messageID = f ++ '_' :: rest0 :=
  ⟨parse_format_roundtrip fm u d r hd hu hr hrne, format_parse_roundtrip f rest0 p hf hp⟩

/-- Witness for C1 at a concrete key. -/
theorem c1_message_key_roundtrip_witness :
    parseMessageIDParts (formatMessageID true ("123".data ++ "@c.us".data) "ABC".data) =
      some ⟨true, "123".data ++ "@c.us".data, "ABC".data⟩ ∧
    formatMessageID false "9@g.us".data "X".data = "false".data ++ '_' :: "9@g.us_X".data :=
  c1_message_key_roundtrip true "123".data "@c.us".data "ABC".data "false".data
    "9@g.us_X".data ⟨false, "9@g.us".data, "X".data⟩ (Or.inl rfl) (by decide) (by decide)
    (by decide) (Or.inr rfl) (by decide)

/-- Claim C10, counterexample to the claim as stated: in
`"x_a@g.us_b@c.us_"` the remainder after the first underscore contains the
domain token `@g.us_` followed by the non-empty raw id `b@c.us_`, yet the
parser rejects the input: it splits at the first occurrence of the
earlier-listed token `@c.us_`, which leaves an empty raw id. -/
theorem c10_parse_nontrue_counterexample :
    strIndex "a@g.us_b@c.us_".data "@g.us_".data = some 1 ∧
    "a@g.us_b@c.us_".data.drop (1 + "@g.us_".data.length) = "b@c.us_".data ∧
    "b@c.us_".data ≠ [] ∧
    parseMessageIDParts "x_a@g.us_b@c.us_".data = none := by
  refine ⟨by decide, by decide, by decide, by decide⟩

/-- Claim C10 (amended): the fromMe segment is never a reason to reject —
for any segment before the first underscore, the parser succeeds whenever the
domain scan (tokens tried in the order `@c.us_`, `@g.us_`,
`@s.whatsapp.net_`, splitting at the first occurrence of the first token
present) yields a non-empty raw id, and every segment other than the literal
`true` maps to `fromMe = false`. -/
theorem c10_parse_nontrue_fromme (f rest c m : List Char)
    (hfne : f ≠ "true".data) (hfu : '_' ∉ f)
    (hmd : matchDomains rest domainTokens = some (c, m)) (hm : m ≠ []) :
    parseMessageIDParts (f ++ '_' :: rest) = some ⟨false, c, m⟩ := by
  rw [parse_split f rest hfu, hmd]
  dsimp only
  obtain ⟨-, hc⟩ := matchDomains_sound hmd domainTokens_shape
  rw [if_neg (by simp [hc, hm])]
  have : (f == "true".data) = false := beq_eq_false_iff_ne.mpr hfne
  rw [this]

/-- Witness for C10 at a concrete input with fromMe segment `TRUE`. -/
theorem c10_parse_nontrue_fromme_witness :
    parseMessageIDParts ("TRUE".data ++ '_' :: "1@c.us_A".data) =
      some ⟨false, "1@c.us".data, "A".data⟩ :=
  c10_parse_nontrue_fromme "TRUE".data "1@c.us_A".data "1@c.us".data "A".data
    (by decide) (by decide) (by decide) (by decide)

/-! ## Claim C2: last-message monotonicity -/

theorem tsLe_refl (a : Option Int) : tsLe a a := by
  cases a with
  | none => trivial
  | some x => exact le_refl x

theorem tsLe_trans {a b c : Option Int} (hab : tsLe a b) (hbc : tsLe b c) : tsLe a c := by
  cases a with
  | none => trivial
  | some x =>
    cases b with
    | none => cases hab
    | some y =>
      cases c with
      | none => cases hbc
      | some z => exact le_trans hab hbc

/-- A single `UpsertChat` never lowers the stored `last_msg_ts`. -/
theorem upsertChat_lastTs_mono (row? : Option ChatRow) (jid n : List Char) (g : Bool)
    (m : Option (List Char)) (t : Option Int) (now : Int) :
    tsLe (lastTsOf row?) (lastTsOf (some (UpsertChat row? jid n g m t now))) := by
  cases row? with
  | none => trivial
  | some r =>
    show tsLe r.lastMsgTs (if tsNewer t r.lastMsgTs then t else r.lastMsgTs)
    by_cases htn : tsNewer t r.lastMsgTs
    · rw [if_pos htn]
      cases t with
      | none => cases htn
      | some tv =>
        cases hrts : r.lastMsgTs with
        | none => trivial
        | some o =>
          rw [hrts] at htn
          have hlt : o < tv := of_decide_eq_true htn
          exact le_of_lt hlt
    · rw [if_neg htn]
      exact tsLe_refl r.lastMsgTs

/-- Over any sequence consisting only of `UpsertChat` operations, the stored
`last_msg_ts` is non-decreasing. -/
theorem applyChatOps_upserts_mono (jid : List Char) (row? : Option ChatRow)
    (ops : List ChatOp) (hops : ∀ op ∈ ops, op.isUpsert = true) :
    tsLe (lastTsOf row?) (lastTsOf (applyChatOps jid row? ops)) := by
  induction ops generalizing row? with
  | nil => exact tsLe_refl _
  | cons op ops ih =>
    cases op with
    | upsert n g m t now =>
      refine tsLe_trans (upsertChat_lastTs_mono row? jid n g m t now) ?_
      exact ih _ (fun o ho => hops o (List.mem_cons_of_mem _ ho))
    | updateLast b t now =>
      have := hops _ (List.mem_cons_self _ _)
      cases this

/-- Claim C2, counterexample to the claim as stated: `UpdateChatLastMessage`
overwrites the preview pair unconditionally, so the pipeline operation
carrying timestamp 5 lowers a stored `last_msg_ts` of 10 (and replaces the
newer preview). -/
theorem c2_monotonic_counterexample :
    lastTsOf (some (⟨"1@c.us".data, [], false, 0, some "new".data, some 10, 0⟩ : ChatRow)) =
      some 10 ∧
    lastTsOf (applyChatOp "1@c.us".data
      (some (⟨"1@c.us".data, [], false, 0, some "new".data, some 10, 0⟩ : ChatRow))
      (ChatOp.updateLast "old".data 5 0)) = some 5 ∧
    (5 : Int) < 10 := by
  refine ⟨by decide, by decide, by decide⟩

/-- Claim C2 (amended): over sequences of `UpsertChat` operations the chat's
`last_msg_ts` never decreases, and an `UpsertChat` carrying a strictly older
timestamp leaves both the stored preview and the stored timestamp unchanged;
the invariant does not extend to `UpdateChatLastMessage`, which overwrites
the pair unconditionally (see the counterexample). -/
theorem c2_i3_monotonicity (jid : List Char) (row? : Option ChatRow) (ops : List ChatOp)
    (r : ChatRow) (n : List Char) (g : Bool) (m : Option (List Char)) (t o now : Int)
    (hops : ∀ op ∈ ops, op.isUpsert = true) (hstored : r.lastMsgTs = some o) (ht : t < o) :
    tsLe (lastTsOf row?) (lastTsOf (applyChatOps jid row? ops)) ∧
    (UpsertChat (some r) jid n g m (some t) now).lastMessage = r.lastMessage ∧
    (UpsertChat (some r) jid n g m (some t) now).lastMsgTs = r.lastMsgTs := by
  refine ⟨applyChatOps_upserts_mono jid row? ops hops, ?_, ?_⟩
  · have hdec : tsNewer (some t) r.lastMsgTs = false := by
      rw [hstored]
      simp only [tsNewer, decide_eq_false_iff_not]
      omega
    simp [UpsertChat, hdec]
  · have hdec : tsNewer (some t) r.lastMsgTs = false := by
      rw [hstored]
      simp only [tsNewer, decide_eq_false_iff_not]
      omega
    simp [UpsertChat, hdec]

/-- Witness for C2 at a concrete row and upsert sequence. -/
theorem c2_i3_monotonicity_witness :
    tsLe (lastTsOf (some sampleChat))
      (lastTsOf (applyChatOps "7@s.whatsapp.net".data (some sampleChat)
        [ChatOp.upsert [] false (some "p2".data) (some 20) 1])) ∧
    (UpsertChat (some sampleChat) "7@s.whatsapp.net".data [] false (some "p0".data)
      (some 3) 1).lastMessage = sampleChat.lastMessage ∧
    (UpsertChat (some sampleChat) "7@s.whatsapp.net".data [] false (some "p0".data)
      (some 3) 1).lastMsgTs = sampleChat.lastMsgTs :=
  c2_i3_monotonicity "7@s.whatsapp.net".data (some sampleChat)
    [ChatOp.upsert [] false (some "p2".data) (some 20) 1] sampleChat [] false
    (some "p0".data) 3 10 1 (by decide) (by decide) (by decide)

/-! ## Claim C3: non-empty preservation -/

/-- Claim C3 (confirmed): on a conflicting upsert, an empty incoming value
for a merged textual field (contact name / push name / number, chat name,
message body / sender name) leaves the stored value unchanged, and a
non-empty incoming value replaces it. -/
theorem c3_nonempty_preservation (ct : ContactRow) (ch : ChatRow) (msg : MessageRow)
    (jid n pn num cn b sn sj cj : List Char) (g cg fm hmedia : Bool) (now ts : Int)
    (mt : Option (List Char)) (rp : List Nat) (cmsg : Option (List Char)) (cts : Option Int)
    (hn : n ≠ []) (hpn : pn ≠ []) (hnum : num ≠ []) (hcn : cn ≠ []) (hb : b ≠ [])
    (hsn : sn ≠ []) :
    (UpsertContact (some ct) jid [] [] [] g now).name = ct.name ∧
    (UpsertContact (some ct) jid [] [] [] g now).pushName = ct.pushName ∧
    (UpsertContact (some ct) jid [] [] [] g now).number = ct.number ∧
    (UpsertContact (some ct) jid n pn num g now).name = n ∧
    (UpsertContact (some ct) jid n pn num g now).pushName = pn ∧
    (UpsertContact (some ct) jid n pn num g now).number = num ∧
    (UpsertChat (some ch) jid [] cg cmsg cts now).name = ch.name ∧
    (UpsertChat (some ch) jid cn cg cmsg cts now).name = cn ∧
    (UpsertMessage (some msg) jid cj sj [] fm [] ts hmedia mt rp).body = msg.body ∧
    (UpsertMessage (some msg) jid cj sj [] fm [] ts hmedia mt rp).senderName = msg.senderName ∧
    (UpsertMessage (some msg) jid cj sj sn fm b ts hmedia mt rp).body = b ∧
    (UpsertMessage (some msg) jid cj sj sn fm b ts hmedia mt rp).senderName = sn := by
  simp [UpsertContact, UpsertChat, UpsertMessage, hn, hpn, hnum, hcn, hb, hsn]

/-- Witness for C3 at concrete rows and values. -/
theorem c3_nonempty_preservation_witness :
    (UpsertContact (some sampleContact) "7@s.whatsapp.net".data [] [] [] false 5).name =
      sampleContact.name ∧
    (UpsertContact (some sampleContact) "7@s.whatsapp.net".data [] [] [] false 5).pushName =
      sampleContact.pushName ∧
    (UpsertContact (some sampleContact) "7@s.whatsapp.net".data [] [] [] false 5).number =
      sampleContact.number ∧
    (UpsertContact (some sampleContact) "7@s.whatsapp.net".data "N".data "P".data "77".data
      false 5).name = "N".data ∧
    (UpsertContact (some sampleContact) "7@s.whatsapp.net".data "N".data "P".data "77".data
      false 5).pushName = "P".data ∧
    (UpsertContact (some sampleContact) "7@s.whatsapp.net".data "N".data "P".data "77".data
      false 5).number = "77".data ∧
    (UpsertChat (some sampleChat) "7@s.whatsapp.net".data [] false none none 5).name =
      sampleChat.name ∧
    (UpsertChat (some sampleChat) "7@s.whatsapp.net".data "CN".data false none none 5).name =
      "CN".data ∧
    (UpsertMessage (some sampleMessage) "7@s.whatsapp.net".data "c@c.us".data "s@c.us".data
      [] true [] 6 false none []).body = sampleMessage.body ∧
    (UpsertMessage (some sampleMessage) "7@s.whatsapp.net".data "c@c.us".data "s@c.us".data
      [] true [] 6 false none []).senderName = sampleMessage.senderName ∧
    (UpsertMessage (some sampleMessage) "7@s.whatsapp.net".data "c@c.us".data "s@c.us".data
      "SN".data true "B".data 6 false none []).body = "B".data ∧
    (UpsertMessage (some sampleMessage) "7@s.whatsapp.net".data "c@c.us".data "s@c.us".data
      "SN".data true "B".data 6 false none []).senderName = "SN".data :=
  c3_nonempty_preservation sampleContact sampleChat sampleMessage "7@s.whatsapp.net".data
    "N".data "P".data "77".data "CN".data "B".data "SN".data "s@c.us".data "c@c.us".data
    false false true false 5 6 none [] none none (by decide) (by decide) (by decide)
    (by decide) (by decide) (by decide)

/-! ## Claim C9: the chat preview string -/

/-- Claim C9, counterexample to the claim as stated: a 101-character body
produces a 103-character preview (`truncate` appends a literal `"..."`), so
the stored preview is not capped at 100 characters. -/
theorem c9_preview_counterexample :
    100 < (List.replicate 101 'a').length ∧
    bodyPreview (List.replicate 101 'a') = List.replicate 100 'a' ++ "...".data ∧
    (bodyPreview (List.replicate 101 'a')).length = 103 ∧
    ¬ (bodyPreview (List.replicate 101 'a')).length ≤ 100 := by
  refine ⟨by decide, by decide, by decide, by decide⟩

/-- Claim C9 (amended): the preview passed to `UpsertChat` and
`UpdateChatLastMessage` is `truncate body 100`, which equals the body when it
is at most 100 characters long and otherwise is the first 100 characters
followed by a literal `"..."` — so its length is at most 103, not 100. The
pipeline stores exactly this preview on a fresh chat row. -/
theorem c9_preview_truncation (b c jid : List Char) (g : Bool) (ts now : Int)
    (hb : b.length ≤ 100) (hc : 100 < c.length) :
    bodyPreview b = b ∧
    bodyPreview c = c.take 100 ++ "...".data ∧
    (bodyPreview c).length = 103 ∧
    (bodyPreview b).length ≤ 103 ∧
    (handleMessageChatStep jid none g c ts now).bind (·.lastMessage) =
      some (bodyPreview c) := by
  have hcne : c ≠ [] := by
    intro hnil
    rw [hnil] at hc
    simp at hc
  have h1 : bodyPreview b = b := by
    simp [bodyPreview, truncate, hb]
  have h2 : bodyPreview c = c.take 100 ++ "...".data := by
    simp [bodyPreview, truncate]
    omega
  refine ⟨h1, h2, ?_, ?_, ?_⟩
  · rw [h2]
    simp [List.length_take]
    omega
  · rw [h1]
    omega
  · simp [handleMessageChatStep, UpdateChatLastMessage, hcne]

/-- Witness for C9 at concrete bodies of length 5 and 101. -/
theorem c9_preview_truncation_witness :
    bodyPreview "short".data = "short".data ∧
    bodyPreview (List.replicate 101 'x') = (List.replicate 101 'x').take 100 ++ "...".data ∧
    (bodyPreview (List.replicate 101 'x')).length = 103 ∧
    (bodyPreview "short".data).length ≤ 103 ∧
    (handleMessageChatStep "1@s.whatsapp.net".data none false (List.replicate 101 'x')
      7 8).bind (·.lastMessage) = some (bodyPreview (List.replicate 101 'x')) :=
  c9_preview_truncation "short".data (List.replicate 101 'x') "1@s.whatsapp.net".data
    false 7 8 (by decide) (by decide)

/-! ## Claim C4: history-sync anchor selection -/

/-- The min-timestamp fold starting from a seed returns a row drawn from the
seed or the list, with timestamp minimal among both. -/
theorem minTsFold_spec (l : List MessageRow) (b : MessageRow) :
    ∃ r, l.foldl minTsFold (some b) = some r ∧ (r = b ∨ r ∈ l) ∧
      r.timestamp ≤ b.timestamp ∧ ∀ m ∈ l, r.timestamp ≤ m.timestamp := by
  induction l generalizing b with
  | nil => exact ⟨b, rfl, Or.inl rfl, le_refl _, by simp⟩
  | cons x l ih =>
    by_cases hx : x.timestamp < b.timestamp
    · obtain ⟨r, hr, hmem, hle, hall⟩ := ih x
      have hstep : (x :: l).foldl minTsFold (some b) = l.foldl minTsFold (some x) := by
        show l.foldl minTsFold (minTsFold (some b) x) = _
        simp [minTsFold, hx]
      refine ⟨r, hstep ▸ hr, ?_, ?_, ?_⟩
      · rcases hmem with rfl | hmem
        · exact Or.inr (List.mem_cons_self _ _)
        · exact Or.inr (List.mem_cons_of_mem _ hmem)
      · exact le_of_lt (lt_of_le_of_lt hle hx)
      · intro m hm
        rcases List.mem_cons.mp hm with rfl | hm
        · exact hle
        · exact hall m hm
    · obtain ⟨r, hr, hmem, hle, hall⟩ := ih b
      have hstep : (x :: l).foldl minTsFold (some b) = l.foldl minTsFold (some b) := by
        show l.foldl minTsFold (minTsFold (some b) x) = _
        simp [minTsFold, hx]
      refine ⟨r, hstep ▸ hr, ?_, hle, ?_⟩
      · rcases hmem with rfl | hmem
        · exact Or.inl rfl
        · exact Or.inr (List.mem_cons_of_mem _ hmem)
      · intro m hm
        rcases List.mem_cons.mp hm with rfl | hm
        · exact le_trans hle (le_of_not_lt hx)
        · exact hall m hm

/-- A row returned by `oldestRow` belongs to the chat and has the minimum
timestamp among the chat's messages. -/
theorem oldestRow_spec {msgs : List MessageRow} {c : List Char} {row : MessageRow}
    (h : oldestRow msgs c = some row) : isOldestInChat msgs c row := by
  unfold oldestRow at h
  cases hf : msgs.filter (fun m => m.chatJID == c) with
  | nil => rw [hf] at h; cases h
  | cons x l =>
    rw [hf] at h
    have hstep : (x :: l).foldl minTsFold none = l.foldl minTsFold (some x) := rfl
    rw [hstep] at h
    obtain ⟨r, hr, hmem, hle, hall⟩ := minTsFold_spec l x
    rw [hr] at h
    obtain rfl : r = row := by injection h
    have hmemf : r ∈ msgs.filter (fun m => m.chatJID == c) := by
      rw [hf]
      rcases hmem with rfl | hmem
      · exact List.mem_cons_self _ _
      · exact List.mem_cons_of_mem _ hmem
    obtain ⟨hmsgs, hcj⟩ := List.mem_filter.mp hmemf
    refine ⟨hmsgs, beq_iff_eq.mp hcj, ?_⟩
    intro m hm hmc
    have hmf : m ∈ msgs.filter (fun m => m.chatJID == c) :=
      List.mem_filter.mpr ⟨hm, beq_iff_eq.mpr hmc⟩
    rw [hf] at hmf
    rcases List.mem_cons.mp hmf with rfl | hmf
    · exact hle
    · exact hall m hmf

/-- Claim C4, counterexample to the claim as stated: the chat has one stored
message (timestamp 100), but its id does not parse as a message key, so
`GetOldestMessage` errors and `RequestHistorySync` silently falls back to the
sentinel now-anchor instead of anchoring at the stored message. -/
theorem c4_anchor_counterexample :
    oldestRow [⟨"garbage".data, "1@s.whatsapp.net".data, [], [], false, [], 100, false, none, []⟩]
        "1@s.whatsapp.net".data =
      some ⟨"garbage".data, "1@s.whatsapp.net".data, [], [], false, [], 100, false, none, []⟩ ∧
    RequestHistorySync
        [⟨"garbage".data, "1@s.whatsapp.net".data, [], [], false, [], 100, false, none, []⟩]
        "1@s.whatsapp.net".data 999 = ⟨sentinelRawID, true, 999⟩ ∧
    (999 : Int) ≠ 100 := by
  refine ⟨by decide, by decide, by decide⟩

/-- Claim C4 (amended): when the chat has a stored message whose minimal-ts
row's id parses as a message key, the outbound anchor carries that row's raw
id, fromMe flag, and timestamp, and the row really is a minimum-timestamp
message of the chat; when the chat has no stored messages (and also when the
stored id fails to parse, see the counterexample), the anchor is the
24-hex-F sentinel with `fromMe = true` at the current time. -/
theorem c4_history_anchor (msgs msgs2 : List MessageRow) (c c2 : List Char) (now now2 : Int)
    (row : MessageRow) (parts : MsgIDParts)
    (h1 : oldestRow msgs c = some row) (h2 : parseMessageIDParts row.id = some parts)
    (hempty : ∀ m ∈ msgs2, m.chatJID ≠ c2) :
    RequestHistorySync msgs c now = ⟨parts.messageID, row.fromMe, row.timestamp⟩ ∧
    isOldestInChat msgs c row ∧
    RequestHistorySync msgs2 c2 now2 = ⟨sentinelRawID, true, now2⟩ := by
  refine ⟨?_, oldestRow_spec h1, ?_⟩
  · unfold RequestHistorySync GetOldestMessage
    rw [h1]
    dsimp only
    rw [h2]
  · have hnil : msgs2.filter (fun m => m.chatJID == c2) = [] := by
      rw [List.filter_eq_nil_iff]
      intro m hm
      simp only [beq_iff_eq]
      exact hempty m hm
    unfold RequestHistorySync GetOldestMessage oldestRow
    rw [hnil]
    rfl

/-- Witness for C4 at a concrete two-message chat and an empty chat. -/
theorem c4_history_anchor_witness :
    RequestHistorySync
        [⟨"true_1@c.us_BB".data, "1@s.whatsapp.net".data, [], [], true, [], 200, false, none, []⟩,
         ⟨"false_1@c.us_AA".data, "1@s.whatsapp.net".data, [], [], false, [], 100, false, none, []⟩]
        "1@s.whatsapp.net".data 999 =
      ⟨"AA".data, false, 100⟩ ∧
    isOldestInChat
        [⟨"true_1@c.us_BB".data, "1@s.whatsapp.net".data, [], [], true, [], 200, false, none, []⟩,
         ⟨"false_1@c.us_AA".data, "1@s.whatsapp.net".data, [], [], false, [], 100, false, none, []⟩]
        "1@s.whatsapp.net".data
        ⟨"false_1@c.us_AA".data, "1@s.whatsapp.net".data, [], [], false, [], 100, false, none, []⟩ ∧
    RequestHistorySync [] "2@s.whatsapp.net".data 7 = ⟨sentinelRawID, true, 7⟩ :=
  c4_history_anchor
    [⟨"true_1@c.us_BB".data, "1@s.whatsapp.net".data, [], [], true, [], 200, false, none, []⟩,
     ⟨"false_1@c.us_AA".data, "1@s.whatsapp.net".data, [], [], false, [], 100, false, none, []⟩]
    [] "1@s.whatsapp.net".data "2@s.whatsapp.net".data 999 7
    ⟨"false_1@c.us_AA".data, "1@s.whatsapp.net".data, [], [], false, [], 100, false, none, []⟩
    ⟨false, "1@c.us".data, "AA".data⟩ (by decide) (by decide) (by decide)

/-! ## Claim C5: GetMessages -/

/-- Claim C5, counterexample to the claim as stated: `beforeTs = -1` is
non-zero, yet the query applies no timestamp filter (the Go code tests
`beforeTs > 0`, not `beforeTs != 0`): a row with timestamp 5 is returned even
though 5 is not at most -1. -/
theorem c5_get_messages_counterexample :
    (-1 : Int) ≠ 0 ∧
    GetMessages [⟨"k".data, "c".data, [], [], false, [], 5, false, none, []⟩] "c".data 10 (-1) =
      [⟨"k".data, "c".data, [], [], false, [], 5, false, none, []⟩] ∧
    ¬ ((5 : Int) ≤ -1) := by
  refine ⟨by decide, by decide, by decide⟩

/-- Claim C5 (amended): for positive `beforeTs` (not merely non-zero — a
negative bound is ignored like zero), `GetMessages` returns at most `limit`
rows, all from the chat, ordered by timestamp descending, each with
timestamp at most `beforeTs`; with `beforeTs = 0` the same holds without the
timestamp bound, the selection being exactly the chat filter, sort, and
truncation. -/
theorem c5_get_messages (msgs : List MessageRow) (c : List Char) (limit : Nat)
    (beforeTs : Int) (hpos : 0 < beforeTs) (hlim : 0 < limit) :
    (GetMessages msgs c limit beforeTs).length ≤ limit ∧
    allInChat c (GetMessages msgs c limit beforeTs) ∧
    tsSortedDesc (GetMessages msgs c limit beforeTs) ∧
    allBefore beforeTs (GetMessages msgs c limit beforeTs) ∧
    (GetMessages msgs c limit 0).length ≤ limit ∧
    allInChat c (GetMessages msgs c limit 0) ∧
    tsSortedDesc (GetMessages msgs c limit 0) ∧
    GetMessages msgs c limit 0 =
      ((msgs.filter fun m => m.chatJID == c).insertionSort tsGE).take limit := by
  have hunf : GetMessages msgs c limit beforeTs =
      ((msgs.filter fun m => m.chatJID == c && decide (m.timestamp ≤ beforeTs)).insertionSort
        tsGE).take limit := by
    unfold GetMessages
    rw [if_pos hpos]
  have hunf0 : GetMessages msgs c limit 0 =
      ((msgs.filter fun m => m.chatJID == c).insertionSort tsGE).take limit := by
    unfold GetMessages
    rw [if_neg (by omega)]
  refine ⟨?_, ?_, ?_, ?_, ?_, ?_, ?_, hunf0⟩
  · rw [hunf]
    exact List.length_take_le _ _
  · intro m hm
    rw [hunf] at hm
    have hm2 := (List.take_sublist _ _).subset hm
    rw [List.mem_insertionSort] at hm2
    obtain ⟨-, hp⟩ := List.mem_filter.mp hm2
    simp only [Bool.and_eq_true, beq_iff_eq, decide_eq_true_eq] at hp
    exact hp.1
  · rw [hunf]
    exact ((List.sorted_insertionSort tsGE _).sublist (List.take_sublist _ _) : _)
  · intro m hm
    rw [hunf] at hm
    have hm2 := (List.take_sublist _ _).subset hm
    rw [List.mem_insertionSort] at hm2
    obtain ⟨-, hp⟩ := List.mem_filter.mp hm2
    simp only [Bool.and_eq_true, beq_iff_eq, decide_eq_true_eq] at hp
    exact hp.2
  · rw [hunf0]
    exact List.length_take_le _ _
  · intro m hm
    rw [hunf0] at hm
    have hm2 := (List.take_sublist _ _).subset hm
    rw [List.mem_insertionSort] at hm2
    obtain ⟨-, hp⟩ := List.mem_filter.mp hm2
    exact beq_iff_eq.mp hp
  · rw [hunf0]
    exact ((List.sorted_insertionSort tsGE _).sublist (List.take_sublist _ _) : _)

/-- Witness for C5 at a concrete three-message store. -/
theorem c5_get_messages_witness :
    (GetMessages
        [⟨"a".data, "c".data, [], [], false, [], 5, false, none, []⟩,
         ⟨"b".data, "c".data, [], [], false, [], 60, false, none, []⟩,
         ⟨"d".data, "x".data, [], [], false, [], 7, false, none, []⟩]
        "c".data 2 50).length ≤ 2 ∧
    allInChat "c".data (GetMessages
        [⟨"a".data, "c".data, [], [], false, [], 5, false, none, []⟩,
         ⟨"b".data, "c".data, [], [], false, [], 60, false, none, []⟩,
         ⟨"d".data, "x".data, [], [], false, [], 7, false, none, []⟩]
        "c".data 2 50) ∧
    tsSortedDesc (GetMessages
        [⟨"a".data, "c".data, [], [], false, [], 5, false, none, []⟩,
         ⟨"b".data, "c".data, [], [], false, [], 60, false, none, []⟩,
         ⟨"d".data, "x".data, [], [], false, [], 7, false, none, []⟩]
        "c".data 2 50) ∧
    allBefore 50 (GetMessages
        [⟨"a".data, "c".data, [], [], false, [], 5, false, none, []⟩,
         ⟨"b".data, "c".data, [], [], false, [], 60, false, none, []⟩,
         ⟨"d".data, "x".data, [], [], false, [], 7, false, none, []⟩]
        "c".data 2 50) ∧
    (GetMessages
        [⟨"a".data, "c".data, [], [], false, [], 5, false, none, []⟩,
         ⟨"b".data, "c".data, [], [], false, [], 60, false, none, []⟩,
         ⟨"d".data, "x".data, [], [], false, [], 7, false, none, []⟩]
        "c".data 2 0).length ≤ 2 ∧
    allInChat "c".data (GetMessages
        [⟨"a".data, "c".data, [], [], false, [], 5, false, none, []⟩,
         ⟨"b".data, "c".data, [], [], false, [], 60, false, none, []⟩,
         ⟨"d".data, "x".data, [], [], false, [], 7, false, none, []⟩]
        "c".data 2 0) ∧
    tsSortedDesc (GetMessages
        [⟨"a".data, "c".data, [], [], false, [], 5, false, none, []⟩,
         ⟨"b".data, "c".data, [], [], false, [], 60, false, none, []⟩,
         ⟨"d".data, "x".data, [], [], false, [], 7, false, none, []⟩]
        "c".data 2 0) ∧
    GetMessages
        [⟨"a".data, "c".data, [], [], false, [], 5, false, none, []⟩,
         ⟨"b".data, "c".data, [], [], false, [], 60, false, none, []⟩,
         ⟨"d".data, "x".data, [], [], false, [], 7, false, none, []⟩]
        "c".data 2 0 =
      (([⟨"a".data, "c".data, [], [], false, [], 5, false, none, []⟩,
         ⟨"b".data, "c".data, [], [], false, [], 60, false, none, []⟩,
         ⟨"d".data, "x".data, [], [], false, [], 7, false, none, []⟩].filter
          fun m => m.chatJID == "c".data).insertionSort tsGE).take 2 :=
  c5_get_messages
    [⟨"a".data, "c".data, [], [], false, [], 5, false, none, []⟩,
     ⟨"b".data, "c".data, [], [], false, [], 60, false, none, []⟩,
     ⟨"d".data, "x".data, [], [], false, [], 7, false, none, []⟩]
    "c".data 2 50 (by decide) (by decide)

/-! ## Claim C6: DeleteChat -/

/-- Claim C6 (confirmed): after a committed `DeleteChat`, the chat's message
query returns the empty list and no chat row with that jid survives into the
chat listing; when the transaction does not commit, the store is unchanged. -/
theorem c6_delete_chat (s : Store) (c : List Char) (limit : Nat) (beforeTs : Int) :
    GetMessages (DeleteChat s c true).messages c limit beforeTs = [] ∧
    chatAbsent (DeleteChat s c true) c ∧
    DeleteChat s c false = s := by
  have hmsgs : (DeleteChat s c true).messages =
      s.messages.filter fun m => !(m.chatJID == c) := rfl
  have hchats : (DeleteChat s c true).chats =
      s.chats.filter fun ch => !(ch.jid == c) := rfl
  refine ⟨?_, ?_, rfl⟩
  · have hnil : ∀ p : MessageRow → Bool,
        (∀ m, p m = true → (m.chatJID == c) = true) →
        ((DeleteChat s c true).messages.filter p) = [] := by
      intro p hp
      rw [hmsgs, List.filter_filter, List.filter_eq_nil_iff]
      intro m _
      intro hand
      rw [Bool.and_eq_true] at hand
      have h1 := hp m hand.1
      rw [h1] at hand
      cases hand.2
    unfold GetMessages
    by_cases hpos : 0 < beforeTs
    · rw [if_pos hpos, hnil _ (by
        intro m hm
        rw [Bool.and_eq_true] at hm
        exact hm.1)]
      simp
    · rw [if_neg hpos, hnil _ (fun m hm => hm)]
      simp
  · intro ch hch hjid
    unfold getChatsRows at hch
    rw [List.mem_insertionSort] at hch
    obtain ⟨hmem, -⟩ := List.mem_filter.mp hch
    rw [hchats] at hmem
    obtain ⟨-, hne⟩ := List.mem_filter.mp hmem
    rw [Bool.not_eq_true', beq_eq_false_iff_ne] at hne
    exact hne hjid

/-! ## Claim C8: GetRawProto -/

/-- Claim C8, counterexample to the claim as stated: a row exists whose
`raw_proto` column is empty, yet `GetRawProto` succeeds with empty bytes —
the store function only errors on a missing row; the emptiness rejection
lives in the download handler. -/
theorem c8_raw_counterexample :
    (⟨"k".data, "c".data, [], [], false, [], 0, false, none, []⟩ : MessageRow).rawProto = [] ∧
    GetRawProto [⟨"k".data, "c".data, [], [], false, [], 0, false, none, []⟩] "k".data =
      some [] := by
  refine ⟨by decide, by decide⟩

/-- Claim C8 (amended): `GetRawProto` returns the stored bytes of the row
with the given key and errors exactly when no such row exists; a present row
with an empty column is returned successfully as empty bytes, and it is the
`/download-media` handler that additionally rejects empty stored bytes. -/
theorem c8_get_raw_proto (msgs msgs2 msgs3 : List MessageRow) (k k2 k3 : List Char)
    (row row3 : MessageRow)
    (h1 : msgs.find? (fun m => m.id == k) = some row)
    (h2 : msgs2.find? (fun m => m.id == k2) = none)
    (h3 : msgs3.find? (fun m => m.id == k3) = some row3)
    (he : row3.rawProto = []) :
    GetRawProto msgs k = some row.rawProto ∧
    GetRawProto msgs2 k2 = none ∧
    downloadMediaRawProto msgs3 k3 = none := by
  refine ⟨?_, ?_, ?_⟩
  · rw [GetRawProto, h1]
    rfl
  · rw [GetRawProto, h2]
    rfl
  · rw [downloadMediaRawProto, GetRawProto, h3]
    simp [he]

/-- Witness for C8 at concrete one-row stores. -/
theorem c8_get_raw_proto_witness :
    GetRawProto [⟨"k".data, "c".data, [], [], false, [], 0, false, none, [1, 2]⟩] "k".data =
      some (⟨"k".data, "c".data, [], [], false, [], 0, false, none, [1, 2]⟩ : MessageRow).rawProto ∧
    GetRawProto [] "missing".data = none ∧
    downloadMediaRawProto [⟨"e".data, "c".data, [], [], false, [], 0, false, none, []⟩]
      "e".data = none :=
  c8_get_raw_proto [⟨"k".data, "c".data, [], [], false, [], 0, false, none, [1, 2]⟩] []
    [⟨"e".data, "c".data, [], [], false, [], 0, false, none, []⟩] "k".data "missing".data
    "e".data ⟨"k".data, "c".data, [], [], false, [], 0, false, none, [1, 2]⟩
    ⟨"e".data, "c".data, [], [], false, [], 0, false, none, []⟩
    (by decide) (by decide) (by decide) (by decide)

/-! ## Claim C7: GetContacts -/

/-- Claim C7, counterexample to the claim as stated: a group chat whose
address is neither a LID nor a BROADCAST address is not returned —
`GetContacts` additionally filters on `is_group = 0`. -/
theorem c7_get_contacts_counterexample :
    GetContacts ⟨[], [⟨"99@g.us".data, "G".data, true, 0, none, none, 0⟩], []⟩ = [] ∧
    ("@lid".data.isSuffixOf "99@g.us".data) = false ∧
    ("@broadcast".data.isSuffixOf "99@g.us".data) = false ∧
    (⟨[], [⟨"99@g.us".data, "G".data, true, 0, none, none, 0⟩], []⟩ : Store).chats ≠ [] := by
  refine ⟨by decide, by decide, by decide, by decide⟩

/-- Claim C7 (amended): `GetContacts` returns exactly one entry per
non-group chat whose address ends in neither `@lid` nor `@broadcast`, each
entry carrying the API-form address and a display name that is the first
non-empty of contact name, contact push name, chat name, and the jid with
all occurrences of `@s.whatsapp.net` and `@c.us` removed (which equals
`extractNumber` for addresses on those two servers), ordered by display name
case-insensitively. -/
theorem c7_get_contacts (s : Store) :
    contactsExactly s ∧ sortedByNameCI (GetContacts s) := by
  constructor
  · intro e
    unfold GetContacts
    rw [List.mem_insertionSort, List.mem_map]
    constructor
    · rintro ⟨ch, hch, rfl⟩
      obtain ⟨hmem, hf⟩ := List.mem_filter.mp hch
      exact ⟨ch, ⟨hmem, hf⟩, rfl⟩
    · rintro ⟨ch, ⟨hmem, hf⟩, rfl⟩
      exact ⟨ch, List.mem_filter.mpr ⟨hmem, hf⟩, rfl⟩
  · exact List.sorted_insertionSort nameCI _

end FastWhatsapp
